import Mathlib

/-!
Shallow embedding of the `django-mailviews` repository (files
`mailviews/utils.py` and `mailviews/previews.py`) and proofs about it.

Strings manipulated by `split_docstring` are embedded as `List Char`;
query dictionaries as association lists from keys to value lists (the
shape of Django's `QueryDict`); the registry of a `PreviewSite` as an
association list from module names to inner association lists from class
names to preview instances.  Effects are made explicit: a view returns
its response together with an instrumentation component (the number of
message renderings attempted, or the list of messages passed to `send`),
and a Python exception escaping a view is an `Except.error` value.
-/

/-! ## utils.py: split_docstring (with Python 2.7 textwrap.dedent and str.strip) -/

/-- Characters matched by `[ \t]` in `textwrap.dedent`'s regexes. -/
def isIndentChar (c : Char) : Bool := c = ' ' || c = '\t'

/-- Characters stripped by Python 2 `str.strip()` (string whitespace). -/
def isPySpace (c : Char) : Bool :=
  c = ' ' || c = '\t' || c = '\n' || c = '\r' || c = '\x0B' || c = '\x0C'

/-- `text.split('\n')`: splits a character list at every newline. -/
def splitLines : List Char → List (List Char)
  | [] => [[]]
  | c :: rest =>
    if c = '\n' then [] :: splitLines rest
    else
      match splitLines rest with
      | [] => [[c]]
      | l :: ls => (c :: l) :: ls

/-- `'\n'.join(...)`: joins lines with newlines. -/
def joinLines (ls : List (List Char)) : List Char :=
  List.intercalate ['\n'] ls

/-- `_whitespace_only_re.sub('', text)` acting on one line: a line made
of (only) spaces and tabs becomes empty. -/
def blankToEmpty (l : List Char) : List Char :=
  if l.all isIndentChar then [] else l

/-- The group captured by `_leading_whitespace_re` on one line: its
leading run of spaces and tabs. -/
def lineIndent (l : List Char) : List Char := l.takeWhile isIndentChar

/-- One step of `textwrap.dedent`'s margin computation loop.  The early
`break` with `margin = ""` needs no special handling: an empty margin is
a prefix of every later indent, so the fold keeps it. -/
def marginStep (m : Option (List Char)) (ind : List Char) : Option (List Char) :=
  match m with
  | none => some ind
  | some mg =>
    if mg.isPrefixOf ind then some mg
    else if ind.isPrefixOf mg then some ind
    else some []

/-- Python 2.7 `textwrap.dedent`: empty whitespace-only lines, compute
the common leading-whitespace margin of the non-blank lines, and strip
that margin from every line that starts with it. -/
def pyDedent (s : List Char) : List Char :=
  let ls := (splitLines s).map blankToEmpty
  let indents := (ls.filter (fun l => !l.isEmpty)).map lineIndent
  match indents.foldl marginStep none with
  | none => joinLines ls
  | some mg =>
    if mg.isEmpty then joinLines ls
    else joinLines (ls.map (fun l => if mg.isPrefixOf l then l.drop mg.length else l))

/-- Python `str.strip()`: drop string whitespace from both ends. -/
def pyStrip (l : List Char) : List Char :=
  ((l.dropWhile isPySpace).reverse.dropWhile isPySpace).reverse

/-- The separator `'\n\n'` used by `split_docstring` (a blank line in
already-stripped text). -/
def nnSep : List Char := ['\n', '\n']

/-- Python `s.split(sep, 1)` restricted to the split position: the text
before the first occurrence of `sep` and the text after it, or `none`
when `sep` does not occur. -/
def splitFirst (sep : List Char) : List Char → Option (List Char × List Char)
  | [] => none
  | c :: rest =>
    if sep.isPrefixOf (c :: rest) then some ([], (c :: rest).drop sep.length)
    else
      match splitFirst sep rest with
      | some (a, b) => some (c :: a, b)
      | none => none

/-- The `Docstring` namedtuple of `mailviews/utils.py`. -/
structure Docstring where
  summary : List Char
  body : Option (List Char)
deriving Repr, DecidableEq

/-- `mailviews.utils.split_docstring`.  The argument is the `__doc__`
attribute of the value (`none` models a missing or `None` docstring,
turned into `''` by `getattr(value, '__doc__', '') or ''`). -/
def split_docstring (doc : Option (List Char)) : Option Docstring :=
  let docstring := pyDedent (doc.getD [])
  if docstring = [] then none
  else
    let t := pyStrip docstring
    match splitFirst nnSep t with
    | some (a, b) => some ⟨a, some b⟩
    | none => some ⟨t, none⟩

/-! ## previews.py: data model -/

/-- Django `QueryDict` contents: keys each holding a list of values. -/
abbrev QueryDict := List (String × List String)

/-- Keyword arguments passed to a message view constructor. -/
abbrev Kwargs := List (String × String)

/-- A rendered e-mail message (the object returned by
`message_view.render_to_message()`).  `headers` stands for the raw MIME
message's header mapping, `alternatives` for the list of
`(content, mimetype)` pairs of an `EmailMultiAlternatives` (empty when
the message class has no alternatives attribute, matching
`getattr(message, 'alternatives', [])`). -/
structure EmailMessage where
  subject : String
  body : String
  «to» : List String
  cc : List String
  bcc : List String
  headers : List (String × String)
  alternatives : List (String × String)
deriving Repr, DecidableEq

/-- A Python exception escaping a view: Django's `Http404` or any other
exception (carrying a description). -/
inductive PyExc where
  | http404 : PyExc
  | err (msg : String) : PyExc
deriving Repr, DecidableEq

/-- A `Preview.form_class`: a bound form built from GET data is valid or
not, and a valid form yields `get_message_view_kwargs()`. -/
structure FormClass where
  isValid : QueryDict → Bool
  getMessageViewKwargs : QueryDict → Kwargs

/-- A registered preview instance.  `renderToMessage` combines
`get_message_view(request, **kwargs)` and `render_to_message()`; an
exception raised by either is its `.error` result (the Python code does
not catch it).  `module` is `message_view.__module__` (the registry
key), `clsName` the name of the `Preview` subclass, `clsModule` the
`__module__` of the `Preview` subclass itself (where the class is
defined — this is what the default repr shows, not the message view's
module), `headers` the header subset to show. -/
structure PreviewM where
  module : String
  clsName : String
  clsModule : String
  verboseName : Option String
  messageViewName : String
  messageViewDoc : Option (List Char)
  form_class : Option FormClass
  renderToMessage : Kwargs → Except PyExc EmailMessage
  headers : List String

/-- `Preview.__unicode__`: the verbose name, defaulting to the message
view class name.  This is the display string of a preview; it is NOT
what `str(preview)` returns, because `Preview` defines no `__str__`. -/
def strRep (p : PreviewM) : String := p.verboseName.getD p.messageViewName

/-- `str(preview)`, the key used by `sorted(..., key=str)` in
`PreviewSite.__iter__`.  `Preview` defines `__unicode__` but no
`__str__`, so `str` falls back to the default CPython repr
`<module.ClassName object at 0xADDR>`, built from the `Preview`
subclass's defining module and name.  The address suffix is dropped
here: module and class names are space-free identifiers, so two reprs
with distinct (module, name) pairs always diverge before the address,
and one module's registry holds at most one instance per class name —
the address therefore never decides an order the site produces. -/
def pyStrKey (p : PreviewM) : String :=
  "<" ++ p.clsModule ++ "." ++ p.clsName ++ " object at 0x"

/-- `Preview.description`: the summary of the message view docstring
(`getattr(split_docstring(self.message_view), 'summary', None)`). -/
def PreviewM.description (p : PreviewM) : Option (List Char) :=
  (split_docstring p.messageViewDoc).map Docstring.summary

/-- `Preview.url`: `reverse('mailviews:detail', ...)` for the pattern
`^(?P<module>.+)/(?P<preview>.+)/$`. -/
def PreviewM.url (p : PreviewM) : String :=
  "/" ++ p.module ++ "/" ++ p.clsName ++ "/"

/-! ### QueryDict operations -/

/-- Association-list lookup (Python `dict.__getitem__` as an `Option`). -/
def alistGet {β : Type} (l : List (String × β)) (k : String) : Option β :=
  match l with
  | [] => none
  | (k₁, v) :: rest => if k₁ = k then some v else alistGet rest k

/-- `QueryDict.get(key)`: the last of the key's values, `none` when the
key is absent (or its value list is empty). -/
def qdGet (l : QueryDict) (k : String) : Option String :=
  (alistGet l k).bind (fun vs => vs.getLast?)

/-- `del querydict[key]`: removes the key and all its values. -/
def alistDel {β : Type} (l : List (String × β)) (k : String) : List (String × β) :=
  l.filter (fun kv => kv.1 != k)

/-- `QueryDict.urlencode()`: `k=v` pairs joined by `&`, keys in
dictionary order, each key repeated once per value.  (Percent-escaping
of the individual keys and values is left as the identity; the claims
only compare encodings of related dictionaries.) -/
def urlencode (l : QueryDict) : String :=
  String.intercalate "&" (l.flatMap (fun kv => kv.2.map (fun v => kv.1 ++ "=" ++ v)))

/-! ### Preview views -/

/-- The first alternative with declared content type `text/html`
(`next(alternative[0] for alternative in alternatives if
alternative[1] == 'text/html')`, `none` on `StopIteration`). -/
def firstHtml : List (String × String) → Option String
  | [] => none
  | (content, mime) :: rest =>
    if mime = "text/html" then some content else firstHtml rest

/-- The template context built by `Preview.detail_view` once a message
has been rendered.  (`escaped_html`, a base64 copy of `html` present
exactly when `html` is, and `raw`, the full generated MIME text, are not
modelled separately.) -/
structure DetailContext where
  hasForm : Bool
  subject : String
  body : String
  headers : List (String × Option String)
  html : Option String
deriving Repr, DecidableEq

/-- A response from `Preview.detail_view`: either the bare detail page
(context holds only the preview, and the form when one is configured)
or the full page with a rendered message. -/
inductive DetailResponse where
  | bare (hasForm : Bool) : DetailResponse
  | full (ctx : DetailContext) : DetailResponse
deriving Repr, DecidableEq

/-- A response from `Preview.send_test_view`: a redirect. -/
inductive SendResponse where
  | redirect (url : String) : SendResponse
deriving Repr, DecidableEq

/-- Context assembly of `Preview.detail_view` (lines 199-241). -/
def buildContext (p : PreviewM) (hasForm : Bool) (msg : EmailMessage) : DetailContext :=
  { hasForm := hasForm
    subject := msg.subject
    body := msg.body
    headers := p.headers.map (fun h => (h, (msg.headers.find? (fun kv => kv.1 == h)).map (fun kv => kv.2)))
    html := firstHtml msg.alternatives }

/-- Message rendering step shared by the kwargs-bearing branches of
`Preview.detail_view`: an exception from the message view propagates.
The second component counts message renderings attempted. -/
def renderDetail (p : PreviewM) (hasForm : Bool) (kwargs : Kwargs) :
    Except PyExc DetailResponse × Nat :=
  match p.renderToMessage kwargs with
  | .error e => (.error e, 1)
  | .ok msg => (.ok (.full (buildContext p hasForm msg)), 1)

/-- `Preview.detail_view`.  With a form class configured, the form is
bound exactly when the GET dictionary is non-empty; an unbound or
invalid form short-circuits to the bare page without touching the
message view. -/
def PreviewM.detail_view (p : PreviewM) (get : QueryDict) :
    Except PyExc DetailResponse × Nat :=
  match p.form_class with
  | some fc =>
    if get.isEmpty then (.ok (.bare true), 0)
    else if fc.isValid get then renderDetail p true (fc.getMessageViewKwargs get)
    else (.ok (.bare true), 0)
  | none => renderDetail p false []

/-- `Preview.send_test_email`: override cc, bcc and the recipient list,
then send.  Returns the message as mutated and the list of messages on
which `send()` was invoked. -/
def send_test_email (m : EmailMessage) (recipient : String) :
    EmailMessage × List EmailMessage :=
  let m₂ : EmailMessage := { m with cc := [], bcc := [], «to» := [recipient] }
  (m₂, [m₂])

/-- Render-and-send step of `Preview.send_test_view`: an exception from
the message view propagates and nothing is sent. -/
def sendPart (p : PreviewM) (redirectUrl : String) (kwargs : Kwargs) (r : String) :
    Except PyExc SendResponse × List EmailMessage :=
  match p.renderToMessage kwargs with
  | .error e => (.error e, [])
  | .ok msg => (.ok (.redirect redirectUrl), (send_test_email msg r).2)

/-- `Preview.send_test_view` (lines 243-280).  The detail redirect URL
always carries the original GET parameters minus `testRecipient`; a
missing or falsy (empty) recipient, or an unbound or invalid form,
redirects without sending. -/
def PreviewM.send_test_view (p : PreviewM) (get : QueryDict) :
    Except PyExc SendResponse × List EmailMessage :=
  let redirectUrl := p.url ++ "?" ++ urlencode (alistDel get "testRecipient")
  match qdGet get "testRecipient" with
  | none => (.ok (.redirect redirectUrl), [])
  | some r =>
    if r = "" then (.ok (.redirect redirectUrl), [])
    else
      match p.form_class with
      | some fc =>
        if get.isEmpty then (.ok (.redirect redirectUrl), [])
        else if fc.isValid get then
          sendPart p redirectUrl (fc.getMessageViewKwargs get) r
        else (.ok (.redirect redirectUrl), [])
      | none => sendPart p redirectUrl [] r

/-! ### PreviewSite registry -/

/-- The `PreviewSite.__previews` mapping: module name to (class name to
preview instance). -/
abbrev Registry := List (String × List (String × PreviewM))

/-- Python `d[k] = v` on an association list: replace in place, or
append when the key is new. -/
def alistSet {β : Type} (l : List (String × β)) (k : String) (v : β) :
    List (String × β) :=
  match l with
  | [] => [(k, v)]
  | (k₁, v₁) :: rest =>
    if k₁ = k then (k, v) :: rest else (k₁, v₁) :: alistSet rest k v

/-- `PreviewSite.register`: `self.__previews.setdefault(preview.module, {})`
followed by `index[cls.__name__] = preview`. -/
def register (r : Registry) (p : PreviewM) : Registry :=
  alistSet r p.module (alistSet ((alistGet r p.module).getD []) p.clsName p)

/-- `self.__previews[module][preview]` as an `Option`. -/
def rlookup (r : Registry) (m preview : String) : Option PreviewM :=
  (alistGet r m).bind (fun inner => alistGet inner preview)

/-- All preview instances stored anywhere in the registry. -/
def registryValues (r : Registry) : List PreviewM :=
  r.flatMap (fun kv => kv.2.map (fun e => e.2))

/-- `PreviewSite.__iter__`: one `ModulePreviews` tuple per module key in
sorted order, each holding that module's previews sorted with
`key=str`, i.e. by the default object repr (see `pyStrKey`).  Python's
`sorted` is modelled by the stable `insertionSort`. -/
def siteIter (r : Registry) : List (String × List PreviewM) :=
  (List.insertionSort (fun a b => a ≤ b) (r.map (fun kv => kv.1))).map
    (fun m => (m, List.insertionSort (fun a b => pyStrKey a ≤ pyStrKey b)
      (((alistGet r m).getD []).map (fun e => e.2))))

/-- `PreviewSite.detail_view`: look up the preview, `Http404` on a miss,
delegate on a hit. -/
def PreviewSite.detail_view (r : Registry) (m preview : String) (get : QueryDict) :
    Except PyExc DetailResponse × Nat :=
  match rlookup r m preview with
  | none => (.error .http404, 0)
  | some p => p.detail_view get

/-- `PreviewSite.send_test_view`: look up the preview, `Http404` on a
miss, delegate on a hit. -/
def PreviewSite.send_test_view (r : Registry) (m preview : String) (get : QueryDict) :
    Except PyExc SendResponse × List EmailMessage :=
  match rlookup r m preview with
  | none => (.error .http404, [])
  | some p => p.send_test_view get

/-! ## Concrete instances used by witnesses and counterexamples -/

/-- A rendered message carrying an HTML alternative (after a non-HTML one). -/
def msgHtml : EmailMessage :=
  { subject := "Welcome!"
    body := "plain body"
    «to» := ["team@example.com"]
    cc := ["cc@example.com"]
    bcc := ["bcc@example.com"]
    headers := [("Subject", "Welcome!"), ("From", "noreply@example.com"), ("To", "team@example.com")]
    alternatives := [("BEGIN:VCALENDAR", "text/calendar"), ("<p>hi</p>", "text/html")] }

/-- A form class rejecting every binding. -/
def fcNever : FormClass := { isValid := fun _ => false, getMessageViewKwargs := fun _ => [] }

/-- A form class accepting every binding. -/
def fcAll : FormClass := { isValid := fun _ => true, getMessageViewKwargs := fun _ => [] }

/-- A preview without a form whose message view renders `msgHtml`. -/
def pOk : PreviewM :=
  { module := "app.emails", clsName := "WelcomePreview"
    clsModule := "app.emails.previews", verboseName := none
    messageViewName := "WelcomeView", messageViewDoc := none
    form_class := none, renderToMessage := fun _ => .ok msgHtml
    headers := ["Subject", "From", "To"] }

/-- A preview whose message view raises during construction/rendering. -/
def pFail : PreviewM :=
  { pOk with
    clsName := "BrokenPreview"
    messageViewName := "BrokenView"
    renderToMessage := fun _ => .error (.err "boom") }

/-- A preview with an always-invalid form. -/
def pFormNever : PreviewM :=
  { pOk with clsName := "FormPreview", form_class := some fcNever }

/-- A preview with an always-valid form and a raising message view. -/
def pFormFail : PreviewM :=
  { pFail with clsName := "FormBrokenPreview", form_class := some fcAll }

/-- A second preview under the same registry key as `pOk`. -/
def pOk₂ : PreviewM := { pOk with messageViewName := "WelcomeViewV2" }

/-- A preview in `pOk`'s module under a different class name. -/
def pOther : PreviewM :=
  { pOk with
    clsName := "GoodbyePreview"
    messageViewName := "GoodbyeView" }

/-- The context `detail_view` builds for `pOk` with no form. -/
def ctxOk : DetailContext := buildContext pOk false msgHtml

/-- A docstring with a blank-line-separated first paragraph. -/
def docEx : List Char := ("Summary line.\n\nBody text.").toList

/-- A preview whose display string ("Zebra") sorts after `pB`'s even
though its default repr (class name `APreview`) sorts before it. -/
def pA : PreviewM :=
  { pOk with
    clsName := "APreview"
    messageViewName := "AView"
    verboseName := some "Zebra" }

/-- A preview in `pA`'s module whose display string ("Apple") sorts
before `pA`'s while its default repr (class name `BPreview`) sorts
after. -/
def pB : PreviewM :=
  { pOk with
    clsName := "BPreview"
    messageViewName := "BView"
    verboseName := some "Apple" }

/-! ## Helper lemmas about association lists -/

theorem alistGet_alistSet_self {β : Type} (l : List (String × β)) (k : String) (v : β) :
    alistGet (alistSet l k v) k = some v := by
  induction l with
  | nil => simp [alistSet, alistGet]
  | cons hd tl ih =>
    obtain ⟨k₁, v₁⟩ := hd
    by_cases h : k₁ = k <;> simp [alistSet, alistGet, h, ih]

theorem alistSet_alistSet {β : Type} (l : List (String × β)) (k : String) (v w : β) :
    alistSet (alistSet l k v) k w = alistSet l k w := by
  induction l with
  | nil => simp [alistSet]
  | cons hd tl ih =>
    obtain ⟨k₁, v₁⟩ := hd
    by_cases h : k₁ = k <;> simp [alistSet, h, ih]

theorem mem_snd_alistSet {β : Type} {l : List (String × β)} {k : String} {v x : β}
    (h : x ∈ (alistSet l k v).map (fun e => e.2)) :
    x ∈ l.map (fun e => e.2) ∨ x = v := by
  induction l with
  | nil => simpa [alistSet] using h
  | cons hd tl ih =>
    obtain ⟨k₁, v₁⟩ := hd
    by_cases hk : k₁ = k
    · simp only [alistSet, if_pos hk, List.map_cons, List.mem_cons] at h
      rcases h with h | h
      · exact Or.inr h
      · exact Or.inl (by simp [h])
    · simp only [alistSet, if_neg hk, List.map_cons, List.mem_cons] at h
      rcases h with h | h
      · exact Or.inl (by simp [h])
      · rcases ih h with h' | h'
        · exact Or.inl (by simp only [List.map_cons]; exact List.mem_cons_of_mem _ h')
        · exact Or.inr h'

theorem mem_fst_alistSet {β : Type} {l : List (String × β)} {k : String} {v : β} {x : String}
    (h : x ∈ (alistSet l k v).map (fun e => e.1)) :
    x ∈ l.map (fun e => e.1) ∨ x = k := by
  induction l with
  | nil => simpa [alistSet] using h
  | cons hd tl ih =>
    obtain ⟨k₁, v₁⟩ := hd
    by_cases hk : k₁ = k
    · simp only [alistSet, if_pos hk, List.map_cons, List.mem_cons] at h
      rcases h with h | h
      · exact Or.inr h
      · exact Or.inl (by simp only [List.map_cons]; exact List.mem_cons_of_mem _ h)
    · simp only [alistSet, if_neg hk, List.map_cons, List.mem_cons] at h
      rcases h with h | h
      · exact Or.inl (by simp [h])
      · rcases ih h with h' | h'
        · exact Or.inl (by simp only [List.map_cons]; exact List.mem_cons_of_mem _ h')
        · exact Or.inr h'

theorem mem_alistSet_self {β : Type} (l : List (String × β)) (k : String) (v : β) :
    (k, v) ∈ alistSet l k v := by
  induction l with
  | nil => simp [alistSet]
  | cons hd tl ih =>
    obtain ⟨k₁, v₁⟩ := hd
    by_cases h : k₁ = k <;> simp [alistSet, h, ih]

theorem mem_alistSet_of_ne {β : Type} {l : List (String × β)} {k₁ : String} {v₁ : β}
    (h : (k₁, v₁) ∈ l) (k : String) (v : β) (hne : k₁ ≠ k) :
    (k₁, v₁) ∈ alistSet l k v := by
  induction l with
  | nil => simp at h
  | cons hd tl ih =>
    obtain ⟨k₂, v₂⟩ := hd
    rcases List.mem_cons.mp h with h' | h'
    · obtain ⟨rfl, rfl⟩ := Prod.mk.injEq .. ▸ h'
      have : ¬ (k₁ = k) := hne
      simp [alistSet, this]
    · by_cases hk : k₂ = k
      · simp only [alistSet, if_pos hk]
        exact List.mem_cons_of_mem _ h'
      · simp only [alistSet, if_neg hk]
        exact List.mem_cons_of_mem _ (ih h')

theorem alistGet_mem {β : Type} {l : List (String × β)} {k : String} {v : β}
    (h : alistGet l k = some v) : (k, v) ∈ l := by
  induction l with
  | nil => simp [alistGet] at h
  | cons hd tl ih =>
    obtain ⟨k₁, v₁⟩ := hd
    by_cases hk : k₁ = k
    · simp only [alistGet, if_pos hk] at h
      obtain rfl := Option.some.injEq .. ▸ h
      simp [hk]
    · simp only [alistGet, if_neg hk] at h
      exact List.mem_cons_of_mem _ (ih h)

theorem nodup_fst_alistSet {β : Type} {l : List (String × β)} (k : String) (v : β)
    (h : (l.map (fun e => e.1)).Nodup) :
    ((alistSet l k v).map (fun e => e.1)).Nodup := by
  induction l with
  | nil => simp [alistSet]
  | cons hd tl ih =>
    obtain ⟨k₁, v₁⟩ := hd
    simp only [List.map_cons, List.nodup_cons] at h
    by_cases hk : k₁ = k
    · subst hk
      simpa [alistSet] using h
    · simp only [alistSet, if_neg hk, List.map_cons, List.nodup_cons]
      refine ⟨fun hmem => ?_, ih h.2⟩
      rcases mem_fst_alistSet hmem with h' | h'
      · exact h.1 h'
      · exact hk h'

theorem alistDel_of_get_none {β : Type} {l : List (String × β)} {k : String}
    (h : alistGet l k = none) : alistDel l k = l := by
  induction l with
  | nil => simp [alistDel]
  | cons hd tl ih =>
    obtain ⟨k₁, v₁⟩ := hd
    by_cases hk : k₁ = k
    · simp [alistGet, hk] at h
    · simp only [alistGet, if_neg hk] at h
      have ihh := ih h
      simp only [alistDel] at ihh ⊢
      rw [List.filter_cons]
      simp [bne_iff_ne, hk, ihh]

theorem alistGet_alistDel {β : Type} (l : List (String × β)) (k : String) :
    alistGet (alistDel l k) k = none := by
  induction l with
  | nil => simp [alistDel, alistGet]
  | cons hd tl ih =>
    obtain ⟨k₁, v₁⟩ := hd
    by_cases hk : k₁ = k
    · simpa [alistDel, List.filter_cons, hk] using ih
    · simpa [alistDel, List.filter_cons, hk, alistGet] using ih

theorem alistDel_alistDel {β : Type} (l : List (String × β)) (k : String) :
    alistDel (alistDel l k) k = alistDel l k :=
  alistDel_of_get_none (alistGet_alistDel l k)

/-! ## Helper lemmas about splitFirst and firstHtml -/

theorem isPrefixOf_exists_append {l₁ l₂ : List Char} :
    l₁.isPrefixOf l₂ = true ↔ ∃ t, l₂ = l₁ ++ t := by
  induction l₁ generalizing l₂ with
  | nil => simp [List.isPrefixOf]
  | cons a as ih =>
    cases l₂ with
    | nil => simp [List.isPrefixOf]
    | cons b bs =>
      simp only [List.isPrefixOf, Bool.and_eq_true, beq_iff_eq, List.cons_append,
        List.cons.injEq]
      constructor
      · rintro ⟨rfl, h⟩
        obtain ⟨t, rfl⟩ := ih.mp h
        exact ⟨t, rfl, rfl⟩
      · rintro ⟨t, rfl, rfl⟩
        exact ⟨rfl, ih.mpr ⟨t, rfl⟩⟩

theorem splitFirst_append {sep l a b : List Char} (h : splitFirst sep l = some (a, b)) :
    l = a ++ sep ++ b := by
  induction l generalizing a b with
  | nil => simp [splitFirst] at h
  | cons c rest ih =>
    by_cases hp : sep.isPrefixOf (c :: rest)
    · simp only [splitFirst, if_pos hp, Option.some.injEq, Prod.mk.injEq] at h
      obtain ⟨rfl, rfl⟩ := h
      obtain ⟨t, ht⟩ := isPrefixOf_exists_append.mp hp
      rw [ht, List.drop_left]
      simp
    · simp only [splitFirst, if_neg hp] at h
      cases hsp : splitFirst sep rest with
      | none => rw [hsp] at h; exact absurd h (by simp)
      | some ab =>
        obtain ⟨a₁, b₁⟩ := ab
        rw [hsp] at h
        simp only [Option.some.injEq, Prod.mk.injEq] at h
        obtain ⟨rfl, rfl⟩ := h
        simp [ih hsp]

theorem splitFirst_min {sep l a b : List Char} (h : splitFirst sep l = some (a, b))
    (a₂ b₂ : List Char) (h₂ : l = a₂ ++ sep ++ b₂) : a.length ≤ a₂.length := by
  induction l generalizing a b a₂ b₂ with
  | nil => simp [splitFirst] at h
  | cons c rest ih =>
    by_cases hp : sep.isPrefixOf (c :: rest)
    · simp only [splitFirst, if_pos hp, Option.some.injEq, Prod.mk.injEq] at h
      obtain ⟨rfl, rfl⟩ := h
      simp
    · cases a₂ with
      | nil =>
        exfalso
        apply hp
        rw [isPrefixOf_exists_append]
        exact ⟨b₂, by simpa using h₂⟩
      | cons c₂ rest₂ =>
        simp only [splitFirst, if_neg hp] at h
        cases hsp : splitFirst sep rest with
        | none => rw [hsp] at h; exact absurd h (by simp)
        | some ab =>
          obtain ⟨a₁, b₁⟩ := ab
          rw [hsp] at h
          simp only [Option.some.injEq, Prod.mk.injEq] at h
          obtain ⟨rfl, rfl⟩ := h
          simp only [List.cons_append, List.cons.injEq] at h₂
          obtain ⟨-, h₂'⟩ := h₂
          simp only [List.length_cons]
          exact Nat.succ_le_succ (ih hsp _ _ h₂')

theorem splitFirst_isSome {sep : List Char} (hsep : sep ≠ []) {b : List Char} :
    ∀ (a l : List Char), l = a ++ sep ++ b → (splitFirst sep l).isSome := by
  intro a
  induction a with
  | nil =>
    intro l hl
    cases sep with
    | nil => exact absurd rfl hsep
    | cons s ss =>
      subst hl
      have hp : (s :: ss).isPrefixOf ([] ++ (s :: ss) ++ b) = true := by
        rw [isPrefixOf_exists_append]
        exact ⟨b, by simp⟩
      simp only [List.nil_append, List.cons_append] at hp ⊢
      simp [splitFirst, hp]
  | cons x xs ih =>
    intro l hl
    subst hl
    have hrec := ih (xs ++ sep ++ b) rfl
    rw [List.cons_append, List.cons_append]
    simp only [splitFirst]
    split
    · simp
    · cases hsp : splitFirst sep (xs ++ sep ++ b) with
      | none => rw [hsp] at hrec; simp at hrec
      | some ab =>
        obtain ⟨a₁, b₁⟩ := ab
        simp

theorem firstHtml_eq_none {l : List (String × String)}
    (h : ∀ x ∈ l, x.2 ≠ "text/html") : firstHtml l = none := by
  induction l with
  | nil => rfl
  | cons hd tl ih =>
    obtain ⟨content, mime⟩ := hd
    have hm : mime ≠ "text/html" := by
      simpa using h (content, mime) (List.mem_cons_self _ _)
    simp only [firstHtml, if_neg hm]
    exact ih (fun x hx => h x (List.mem_cons_of_mem _ hx))

theorem firstHtml_first {l : List (String × String)} {x : String × String}
    (hx : x ∈ l) (hhtml : x.2 = "text/html") :
    ∃ pre content rest, l = pre ++ (content, "text/html") :: rest ∧
      (∀ y ∈ pre, y.2 ≠ "text/html") ∧ firstHtml l = some content := by
  induction l with
  | nil => simp at hx
  | cons hd tl ih =>
    obtain ⟨c, m⟩ := hd
    by_cases hm : m = "text/html"
    · subst hm
      exact ⟨[], c, tl, by simp, by simp, by simp [firstHtml]⟩
    · have hx₁ : x ∈ tl := by
        rcases List.mem_cons.mp hx with h₁ | h₁
        · subst h₁
          exact absurd hhtml hm
        · exact h₁
      obtain ⟨pre, content, rest, hl, hpre, hfh⟩ := ih hx₁
      refine ⟨(c, m) :: pre, content, rest, by simp [hl], ?_, by simp [firstHtml, hm, hfh]⟩
      intro y hy
      rcases List.mem_cons.mp hy with h₁ | h₁
      · simpa [h₁] using hm
      · exact hpre y h₁

/-! ## Claim theorems -/

/-- C2: for every site registry and every (module, preview) pair not present
in it, both `PreviewSite.detail_view` and `PreviewSite.send_test_view` raise
`Http404` and delegate to no preview's view method: no message rendering is
attempted and nothing is sent. -/
theorem site_views_unknown_pair_404 (r : Registry) (m preview : String) (get : QueryDict)
    (h : rlookup r m preview = none) :
    PreviewSite.detail_view r m preview get = (.error .http404, 0) ∧
    PreviewSite.send_test_view r m preview get = (.error .http404, []) := by
  constructor <;> simp [PreviewSite.detail_view, PreviewSite.send_test_view, h]

theorem site_views_unknown_pair_404_witness :
    rlookup [] "app.emails" "WelcomePreview" = none ∧
    (PreviewSite.detail_view [] "app.emails" "WelcomePreview" [] = (.error .http404, 0) ∧
     PreviewSite.send_test_view [] "app.emails" "WelcomePreview" [] = (.error .http404, [])) :=
  ⟨rfl, site_views_unknown_pair_404 [] "app.emails" "WelcomePreview" [] rfl⟩

/-- C4: `send_test_email` leaves the message with exactly the single test
recipient, empty cc and bcc, all other fields untouched, and performs a
single synchronous send on the message as overridden. -/
theorem send_test_email_overrides (m : EmailMessage) (recipient : String) :
    (send_test_email m recipient).1.«to» = [recipient] ∧
    (send_test_email m recipient).1.cc = [] ∧
    (send_test_email m recipient).1.bcc = [] ∧
    (send_test_email m recipient).2 = [(send_test_email m recipient).1] ∧
    (send_test_email m recipient).1.subject = m.subject ∧
    (send_test_email m recipient).1.body = m.body ∧
    (send_test_email m recipient).1.headers = m.headers ∧
    (send_test_email m recipient).1.alternatives = m.alternatives := by
  simp [send_test_email]

/-- C3: a send-test request whose GET parameters have no `testRecipient`
key sends nothing and redirects to the detail URL carrying exactly the
original parameters (removing `testRecipient` is a no-op there). -/
theorem send_test_view_no_recipient (p : PreviewM) (get : QueryDict)
    (h : alistGet get "testRecipient" = none) :
    p.send_test_view get = (.ok (.redirect (p.url ++ "?" ++ urlencode get)), []) ∧
    alistDel get "testRecipient" = get := by
  have hdel : alistDel get "testRecipient" = get := alistDel_of_get_none h
  refine ⟨?_, hdel⟩
  simp [PreviewM.send_test_view, qdGet, h, hdel]

theorem send_test_view_no_recipient_witness :
    alistGet ([("a", ["1"])] : QueryDict) "testRecipient" = none ∧
    (PreviewM.send_test_view pOk [("a", ["1"])] =
       (.ok (.redirect (pOk.url ++ "?" ++ urlencode [("a", ["1"])])), []) ∧
     alistDel ([("a", ["1"])] : QueryDict) "testRecipient" = [("a", ["1"])]) :=
  ⟨rfl, send_test_view_no_recipient pOk [("a", ["1"])] rfl⟩

/-- C10: a send-test request whose `testRecipient` parameter is the empty
string behaves exactly as if the key were absent: nothing is sent and the
response redirects to the detail URL with `testRecipient` removed and the
other parameters preserved. -/
theorem send_test_view_blank_recipient (p : PreviewM) (get : QueryDict)
    (h : qdGet get "testRecipient" = some "") :
    p.send_test_view get = p.send_test_view (alistDel get "testRecipient") ∧
    p.send_test_view get =
      (.ok (.redirect (p.url ++ "?" ++ urlencode (alistDel get "testRecipient"))), []) := by
  have h₁ : qdGet (alistDel get "testRecipient") "testRecipient" = none := by
    simp [qdGet, alistGet_alistDel]
  have h₂ : alistDel (alistDel get "testRecipient") "testRecipient" =
      alistDel get "testRecipient" :=
    alistDel_alistDel get "testRecipient"
  constructor
  · simp [PreviewM.send_test_view, h, h₁, h₂]
  · simp [PreviewM.send_test_view, h]

theorem send_test_view_blank_recipient_witness :
    qdGet ([("testRecipient", [""]), ("a", ["1"])] : QueryDict) "testRecipient" = some "" ∧
    (PreviewM.send_test_view pOk [("testRecipient", [""]), ("a", ["1"])] =
       PreviewM.send_test_view pOk
         (alistDel ([("testRecipient", [""]), ("a", ["1"])] : QueryDict) "testRecipient") ∧
     PreviewM.send_test_view pOk [("testRecipient", [""]), ("a", ["1"])] =
       (.ok (.redirect (pOk.url ++ "?" ++ urlencode
         (alistDel ([("testRecipient", [""]), ("a", ["1"])] : QueryDict) "testRecipient"))), [])) :=
  ⟨rfl, send_test_view_blank_recipient pOk [("testRecipient", [""]), ("a", ["1"])] rfl⟩

/-- C9: with a form class configured, an unbound form (no GET parameters)
or an invalid one makes `detail_view` return the bare page holding only
the preview and the form, with no message view instantiated and no
message rendered. -/
theorem detail_view_unbound_or_invalid_form (p : PreviewM) (fc : FormClass) (get : QueryDict)
    (hfc : p.form_class = some fc)
    (h : get = [] ∨ fc.isValid get = false) :
    p.detail_view get = (.ok (.bare true), 0) := by
  rcases h with h | h
  · simp [PreviewM.detail_view, hfc, h]
  · by_cases hg : get.isEmpty
    · simp [PreviewM.detail_view, hfc, hg]
    · simp [PreviewM.detail_view, hfc, hg, h]

theorem detail_view_unbound_or_invalid_form_witness :
    pFormNever.form_class = some fcNever ∧
    fcNever.isValid [("x", ["1"])] = false ∧
    PreviewM.detail_view pFormNever [("x", ["1"])] = (.ok (.bare true), 0) :=
  ⟨rfl, rfl,
    detail_view_unbound_or_invalid_form pFormNever fcNever [("x", ["1"])] rfl (Or.inr rfl)⟩

theorem mem_alistSet_cases {β : Type} {l : List (String × β)} {k : String} {v : β}
    {kv : String × β} (h : kv ∈ alistSet l k v) : kv ∈ l ∨ kv = (k, v) := by
  induction l with
  | nil => simpa [alistSet] using h
  | cons hd tl ih =>
    obtain ⟨k₁, v₁⟩ := hd
    by_cases hk : k₁ = k
    · simp only [alistSet, if_pos hk, List.mem_cons] at h
      rcases h with h | h
      · exact Or.inr h
      · exact Or.inl (List.mem_cons_of_mem _ h)
    · simp only [alistSet, if_neg hk, List.mem_cons] at h
      rcases h with h | h
      · exact Or.inl (by simp [h])
      · rcases ih h with h₁ | h₁
        · exact Or.inl (List.mem_cons_of_mem _ h₁)
        · exact Or.inr h₁

/-- C1: registering a second preview whose (message-view module, class
name) key equals that of an already-registered one replaces the first
entry: lookup under the key yields the second instance, and the first is
no longer reachable anywhere in the registry. -/
theorem register_same_key_overwrites (r : Registry) (p₁ p₂ : PreviewM)
    (hm : p₂.module = p₁.module) (hc : p₂.clsName = p₁.clsName)
    (hne : p₁ ≠ p₂) (hout : p₁ ∉ registryValues r) :
    rlookup (register (register r p₁) p₂) p₁.module p₁.clsName = some p₂ ∧
    p₁ ∉ registryValues (register (register r p₁) p₂) := by
  have hr₂ : register (register r p₁) p₂ =
      alistSet r p₁.module (alistSet ((alistGet r p₁.module).getD []) p₁.clsName p₂) := by
    simp only [register, hm, hc]
    rw [alistGet_alistSet_self]
    simp only [Option.getD_some]
    rw [alistSet_alistSet, alistSet_alistSet]
  rw [hr₂]
  constructor
  · simp only [rlookup]
    rw [alistGet_alistSet_self]
    simp only [Option.some_bind]
    exact alistGet_alistSet_self _ _ _
  · intro hmem
    simp only [registryValues, List.mem_flatMap] at hmem
    obtain ⟨kv, hkv, hp₁⟩ := hmem
    rcases mem_alistSet_cases hkv with hin | hnew
    · exact hout (by
        simp only [registryValues, List.mem_flatMap]
        exact ⟨kv, hin, hp₁⟩)
    · subst hnew
      rcases mem_snd_alistSet hp₁ with hold | hp₂
      · cases hg : alistGet r p₁.module with
        | none => rw [hg] at hold; simp at hold
        | some inner =>
          rw [hg] at hold
          simp only [Option.getD_some] at hold
          exact hout (by
            simp only [registryValues, List.mem_flatMap]
            exact ⟨(p₁.module, inner), alistGet_mem hg, hold⟩)
      · exact hne hp₂

theorem register_same_key_overwrites_witness :
    pOk₂.module = pOk.module ∧ pOk₂.clsName = pOk.clsName ∧ pOk ≠ pOk₂ ∧
    pOk ∉ registryValues [] ∧
    (rlookup (register (register [] pOk) pOk₂) pOk.module pOk.clsName = some pOk₂ ∧
     pOk ∉ registryValues (register (register [] pOk) pOk₂)) := by
  have hne : pOk ≠ pOk₂ := fun h => by
    simpa [pOk, pOk₂] using congrArg PreviewM.messageViewName h
  have hout : pOk ∉ registryValues [] := by simp [registryValues]
  exact ⟨rfl, rfl, hne, hout, register_same_key_overwrites [] pOk pOk₂ rfl rfl hne hout⟩

/-- C5 counterexample: a failure while constructing or rendering the
message during a send-test request with a recipient present does NOT
produce a redirect; the exception propagates out of the view. -/
theorem send_test_view_construction_failure_counterexample :
    (PreviewM.send_test_view pFail [("testRecipient", ["x@example.com"])]).1 =
      .error (.err "boom") ∧
    ∀ u, (PreviewM.send_test_view pFail [("testRecipient", ["x@example.com"])]).1 ≠
      .ok (.redirect u) := by
  refine ⟨rfl, fun u h => ?_⟩
  rw [show (PreviewM.send_test_view pFail [("testRecipient", ["x@example.com"])]).1 =
    Except.error (PyExc.err "boom") from rfl] at h
  exact Except.noConfusion h

/-- C5 (amended): with a test recipient present, an invalid bound form
makes `send_test_view` redirect back to the detail view without sending,
while a failure in message construction or rendering propagates as an
exception (no redirect, nothing sent). -/
theorem send_test_view_failure_policy (p : PreviewM) (get : QueryDict) (fc : FormClass)
    (r : String) (hr : qdGet get "testRecipient" = some r) (hrne : r ≠ "")
    (hfc : p.form_class = some fc) :
    (fc.isValid get = false →
      p.send_test_view get =
        (.ok (.redirect (p.url ++ "?" ++ urlencode (alistDel get "testRecipient"))), [])) ∧
    (∀ e, fc.isValid get = true →
      p.renderToMessage (fc.getMessageViewKwargs get) = .error e →
      p.send_test_view get = (.error e, [])) := by
  have hget : get ≠ [] := by
    intro hnil
    subst hnil
    simp [qdGet, alistGet] at hr
  have hgetE : get.isEmpty = false := by
    cases get with
    | nil => exact absurd rfl hget
    | cons hd tl => rfl
  constructor
  · intro hv
    simp [PreviewM.send_test_view, hr, hrne, hfc, hgetE, hv]
  · intro e hv hrender
    simp [PreviewM.send_test_view, hr, hrne, hfc, hgetE, hv, sendPart, hrender]

theorem send_test_view_failure_policy_witness :
    qdGet [("testRecipient", ["x@example.com"])] "testRecipient" = some "x@example.com" ∧
    "x@example.com" ≠ "" ∧
    pFormFail.form_class = some fcAll ∧
    ((fcAll.isValid [("testRecipient", ["x@example.com"])] = false →
      PreviewM.send_test_view pFormFail [("testRecipient", ["x@example.com"])] =
        (.ok (.redirect (pFormFail.url ++ "?" ++
          urlencode (alistDel ([("testRecipient", ["x@example.com"])] : QueryDict)
            "testRecipient"))), [])) ∧
     (∀ e, fcAll.isValid [("testRecipient", ["x@example.com"])] = true →
      pFormFail.renderToMessage
          (fcAll.getMessageViewKwargs [("testRecipient", ["x@example.com"])]) = .error e →
      PreviewM.send_test_view pFormFail [("testRecipient", ["x@example.com"])] =
        (.error e, []))) :=
  ⟨rfl, by decide, rfl,
    send_test_view_failure_policy pFormFail [("testRecipient", ["x@example.com"])] fcAll
      "x@example.com" rfl (by decide) rfl⟩

theorem renderDetail_full {p : PreviewM} {hasForm : Bool} {kwargs : Kwargs}
    {ctx : DetailContext} {n : Nat}
    (h : renderDetail p hasForm kwargs = (.ok (.full ctx), n)) :
    ∃ msg, p.renderToMessage kwargs = .ok msg ∧ ctx = buildContext p hasForm msg := by
  cases hrm : p.renderToMessage kwargs with
  | error e => simp [renderDetail, hrm] at h
  | ok msg =>
    simp only [renderDetail, hrm] at h
    have h₁ := congrArg Prod.fst h
    simp only [Except.ok.injEq, DetailResponse.full.injEq] at h₁
    exact ⟨msg, rfl, h₁.symm⟩

/-- C6: whenever `detail_view` returns a full rendered context, the
context carries the message's plain body, and it carries an `html` entry
exactly when the message has an alternative with content type
`text/html` — namely the content of the first such alternative; with no
such alternative the `html` entry is absent and no error occurs. -/
theorem detail_view_html_context (p : PreviewM) (get : QueryDict) (ctx : DetailContext)
    (n : Nat) (h : p.detail_view get = (.ok (.full ctx), n)) :
    ∃ kwargs msg, p.renderToMessage kwargs = .ok msg ∧
      ctx.body = msg.body ∧
      ((∃ x ∈ msg.alternatives, x.2 = "text/html") →
        ∃ pre content rest, msg.alternatives = pre ++ (content, "text/html") :: rest ∧
          (∀ y ∈ pre, y.2 ≠ "text/html") ∧ ctx.html = some content) ∧
      ((∀ x ∈ msg.alternatives, x.2 ≠ "text/html") → ctx.html = none) := by
  have step : ∃ kwargs hf msg, p.renderToMessage kwargs = .ok msg ∧
      ctx = buildContext p hf msg := by
    rcases hfc : p.form_class with _ | fc
    · simp only [PreviewM.detail_view, hfc] at h
      obtain ⟨msg, hrm, hctx⟩ := renderDetail_full h
      exact ⟨[], false, msg, hrm, hctx⟩
    · simp only [PreviewM.detail_view, hfc] at h
      split at h
      · exact absurd h (by simp)
      · split at h
        · obtain ⟨msg, hrm, hctx⟩ := renderDetail_full h
          exact ⟨fc.getMessageViewKwargs get, true, msg, hrm, hctx⟩
        · exact absurd h (by simp)
  obtain ⟨kwargs, hf, msg, hrm, hctx⟩ := step
  subst hctx
  refine ⟨kwargs, msg, hrm, rfl, ?_, ?_⟩
  · rintro ⟨x, hx, hhtml⟩
    obtain ⟨pre, content, rest, hl, hpre, hfh⟩ := firstHtml_first hx hhtml
    exact ⟨pre, content, rest, hl, hpre, by simpa [buildContext] using hfh⟩
  · intro hall
    simpa [buildContext] using firstHtml_eq_none hall

theorem detail_view_html_context_witness :
    PreviewM.detail_view pOk [] = (.ok (.full ctxOk), 1) ∧
    (∃ kwargs msg, pOk.renderToMessage kwargs = .ok msg ∧
      ctxOk.body = msg.body ∧
      ((∃ x ∈ msg.alternatives, x.2 = "text/html") →
        ∃ pre content rest, msg.alternatives = pre ++ (content, "text/html") :: rest ∧
          (∀ y ∈ pre, y.2 ≠ "text/html") ∧ ctxOk.html = some content) ∧
      ((∀ x ∈ msg.alternatives, x.2 ≠ "text/html") → ctxOk.html = none)) :=
  ⟨rfl, detail_view_html_context pOk [] ctxOk 1 rfl⟩

/-- C7: `split_docstring` on a docstring whose dedented text is
non-empty splits the stripped text at the first blank-line separator
into summary and body when one occurs; with no separator the whole
stripped text is the summary and the body is `none`; an absent or empty
docstring yields `none`, so the preview's description is `none`. -/
theorem split_docstring_cases (d : List Char) (hne : pyDedent d ≠ []) :
    split_docstring none = none ∧
    split_docstring (some []) = none ∧
    (∀ p : PreviewM, p.messageViewDoc = none → p.description = none) ∧
    ((∃ a b, pyStrip (pyDedent d) = a ++ nnSep ++ b) →
      ∃ a b, split_docstring (some d) = some ⟨a, some b⟩ ∧
        pyStrip (pyDedent d) = a ++ nnSep ++ b ∧
        ∀ a₂ b₂, pyStrip (pyDedent d) = a₂ ++ nnSep ++ b₂ → a.length ≤ a₂.length) ∧
    ((¬ ∃ a b, pyStrip (pyDedent d) = a ++ nnSep ++ b) →
      split_docstring (some d) = some ⟨pyStrip (pyDedent d), none⟩) := by
  refine ⟨rfl, rfl, ?_, ?_, ?_⟩
  · intro p hdoc
    simp [PreviewM.description, hdoc, show split_docstring none = none from rfl]
  · rintro ⟨a, b, hab⟩
    have hsome : (splitFirst nnSep (pyStrip (pyDedent d))).isSome :=
      splitFirst_isSome (by simp [nnSep]) a _ hab
    cases hsp : splitFirst nnSep (pyStrip (pyDedent d)) with
    | none => rw [hsp] at hsome; simp at hsome
    | some ab =>
      obtain ⟨a₁, b₁⟩ := ab
      refine ⟨a₁, b₁, ?_, splitFirst_append hsp,
        fun a₂ b₂ h₂ => splitFirst_min hsp a₂ b₂ h₂⟩
      simp only [split_docstring, Option.getD_some, if_neg hne, hsp]
  · intro hnone
    have hnoneSp : splitFirst nnSep (pyStrip (pyDedent d)) = none := by
      cases hsp : splitFirst nnSep (pyStrip (pyDedent d)) with
      | none => rfl
      | some ab =>
        obtain ⟨a₁, b₁⟩ := ab
        exact absurd ⟨a₁, b₁, splitFirst_append hsp⟩ hnone
    simp only [split_docstring, Option.getD_some, if_neg hne, hnoneSp]

theorem split_docstring_cases_witness :
    pyDedent docEx ≠ [] ∧
    (split_docstring none = none ∧
     split_docstring (some []) = none ∧
     (∀ p : PreviewM, p.messageViewDoc = none → p.description = none) ∧
     ((∃ a b, pyStrip (pyDedent docEx) = a ++ nnSep ++ b) →
       ∃ a b, split_docstring (some docEx) = some ⟨a, some b⟩ ∧
         pyStrip (pyDedent docEx) = a ++ nnSep ++ b ∧
         ∀ a₂ b₂, pyStrip (pyDedent docEx) = a₂ ++ nnSep ++ b₂ → a.length ≤ a₂.length) ∧
     ((¬ ∃ a b, pyStrip (pyDedent docEx) = a ++ nnSep ++ b) →
       split_docstring (some docEx) = some ⟨pyStrip (pyDedent docEx), none⟩)) :=
  ⟨by decide, split_docstring_cases docEx (by decide)⟩

theorem siteIter_map_fst (r : Registry) :
    (siteIter r).map (fun t => t.1) =
      List.insertionSort (fun a b => a ≤ b) (r.map (fun kv => kv.1)) := by
  simp only [siteIter, List.map_map]
  have hcomp : ((fun (t : String × List PreviewM) => t.1) ∘ fun m =>
      (m, List.insertionSort (fun a b => pyStrKey a ≤ pyStrKey b)
        (((alistGet r m).getD []).map (fun e => e.2)))) = id := rfl
  rw [hcomp, List.map_id]

/-- C8 (amended): after registering two previews of one module under
distinct class names, iterating the site yields module tuples in sorted
module order, exactly one tuple per registered module, each tuple
holding that module's previews sorted by `str(preview)` — the default
object repr built from the Preview subclass's defining module and class
name, NOT the `__unicode__` display string — and the two previews
appear grouped in the same tuple. -/
theorem siteIter_sorted_and_grouped (r : Registry) (p₁ p₂ : PreviewM)
    (hm : p₁.module = p₂.module) (hc : p₁.clsName ≠ p₂.clsName)
    (hnd : (r.map (fun kv => kv.1)).Nodup) :
    List.Sorted (fun a b => a ≤ b)
      ((siteIter (register (register r p₁) p₂)).map (fun t => t.1)) ∧
    ((siteIter (register (register r p₁) p₂)).map (fun t => t.1)).Perm
      ((register (register r p₁) p₂).map (fun kv => kv.1)) ∧
    ((siteIter (register (register r p₁) p₂)).map (fun t => t.1)).Nodup ∧
    (∀ m ps, (m, ps) ∈ siteIter (register (register r p₁) p₂) →
      List.Sorted (fun a b => pyStrKey a ≤ pyStrKey b) ps ∧
      ps.Perm (((alistGet (register (register r p₁) p₂) m).getD []).map (fun e => e.2))) ∧
    (∃ ps, (p₁.module, ps) ∈ siteIter (register (register r p₁) p₂) ∧
      p₁ ∈ ps ∧ p₂ ∈ ps) := by
  haveI ht : IsTotal PreviewM (fun a b => pyStrKey a ≤ pyStrKey b) :=
    ⟨fun a b => le_total (pyStrKey a) (pyStrKey b)⟩
  haveI htr : IsTrans PreviewM (fun a b => pyStrKey a ≤ pyStrKey b) :=
    ⟨fun a b c hab hbc => le_trans hab hbc⟩
  refine ⟨?_, ?_, ?_, ?_, ?_⟩
  · rw [siteIter_map_fst]
    exact List.sorted_insertionSort _ _
  · rw [siteIter_map_fst]
    exact List.perm_insertionSort _ _
  · rw [siteIter_map_fst]
    have hk₂ : ((register (register r p₁) p₂).map (fun kv => kv.1)).Nodup :=
      nodup_fst_alistSet _ _ (nodup_fst_alistSet _ _ hnd)
    exact ((List.perm_insertionSort _ _).nodup_iff).mpr hk₂
  · intro m ps hmem
    simp only [siteIter, List.mem_map] at hmem
    obtain ⟨m₁, hm₁, heq⟩ := hmem
    cases heq
    exact ⟨List.sorted_insertionSort _ _, List.perm_insertionSort _ _⟩
  · have hget₁ : alistGet (register r p₁) p₁.module =
        some (alistSet ((alistGet r p₁.module).getD []) p₁.clsName p₁) :=
      alistGet_alistSet_self _ _ _
    have hget₂ : alistGet (register (register r p₁) p₂) p₂.module =
        some (alistSet ((alistGet (register r p₁) p₂.module).getD []) p₂.clsName p₂) :=
      alistGet_alistSet_self _ _ _
    have hp₁pair : (p₁.clsName, p₁) ∈ (alistGet (register r p₁) p₂.module).getD [] := by
      rw [← hm, hget₁]
      simp only [Option.getD_some]
      exact mem_alistSet_self _ _ _
    have hp₂mem : p₂ ∈ (alistSet ((alistGet (register r p₁) p₂.module).getD [])
        p₂.clsName p₂).map (fun e => e.2) :=
      List.mem_map_of_mem _ (mem_alistSet_self _ _ _)
    have hp₁mem : p₁ ∈ (alistSet ((alistGet (register r p₁) p₂.module).getD [])
        p₂.clsName p₂).map (fun e => e.2) :=
      List.mem_map_of_mem _ (mem_alistSet_of_ne hp₁pair _ _ hc)
    have hkey : p₂.module ∈ (register (register r p₁) p₂).map (fun kv => kv.1) :=
      List.mem_map_of_mem _ (mem_alistSet_self _ _ _)
    have hkey₂ : p₂.module ∈ List.insertionSort (fun a b => a ≤ b)
        ((register (register r p₁) p₂).map (fun kv => kv.1)) :=
      ((List.perm_insertionSort _ _).mem_iff).mpr hkey
    have hmem₂ := List.mem_map_of_mem
      (fun m => (m, List.insertionSort (fun a b => pyStrKey a ≤ pyStrKey b)
        (((alistGet (register (register r p₁) p₂) m).getD []).map (fun e => e.2)))) hkey₂
    simp only [hget₂, Option.getD_some] at hmem₂
    refine ⟨List.insertionSort (fun a b => pyStrKey a ≤ pyStrKey b)
      ((alistSet ((alistGet (register r p₁) p₂.module).getD [])
        p₂.clsName p₂).map (fun e => e.2)), ?_, ?_, ?_⟩
    · rw [hm]
      exact hmem₂
    · exact ((List.perm_insertionSort _ _).mem_iff).mpr hp₁mem
    · exact ((List.perm_insertionSort _ _).mem_iff).mpr hp₂mem

theorem siteIter_sorted_and_grouped_witness :
    pOk.module = pOther.module ∧ pOk.clsName ≠ pOther.clsName ∧
    (([] : Registry).map (fun kv => kv.1)).Nodup ∧
    (List.Sorted (fun a b => a ≤ b)
      ((siteIter (register (register [] pOk) pOther)).map (fun t => t.1)) ∧
     ((siteIter (register (register [] pOk) pOther)).map (fun t => t.1)).Perm
      ((register (register [] pOk) pOther).map (fun kv => kv.1)) ∧
     ((siteIter (register (register [] pOk) pOther)).map (fun t => t.1)).Nodup ∧
     (∀ m ps, (m, ps) ∈ siteIter (register (register [] pOk) pOther) →
       List.Sorted (fun a b => pyStrKey a ≤ pyStrKey b) ps ∧
       ps.Perm (((alistGet (register (register [] pOk) pOther) m).getD []).map
         (fun e => e.2))) ∧
     (∃ ps, (pOk.module, ps) ∈ siteIter (register (register [] pOk) pOther) ∧
       pOk ∈ ps ∧ pOther ∈ ps)) := by
  have hc : pOk.clsName ≠ pOther.clsName := by decide
  exact ⟨rfl, hc, by simp, siteIter_sorted_and_grouped [] pOk pOther rfl hc (by simp)⟩

/-- C8 counterexample: within a module, previews are NOT iterated in the
order of their display string representation (`__unicode__`: verbose
name / message-view class name).  With verbose names "Zebra" (class
`APreview`) and "Apple" (class `BPreview`), the site yields the tuple
`[pA, pB]` — default-repr order — which is not sorted by the display
string. -/
theorem siteIter_not_sorted_by_display_string :
    siteIter (register (register [] pA) pB) = [("app.emails", [pA, pB])] ∧
    ¬ List.Sorted (fun a b => strRep a ≤ strRep b) [pA, pB] := by
  have hle : pyStrKey pA ≤ pyStrKey pB := by
    rw [String.le_iff_toList_le]
    decide
  constructor
  · have hreg : register (register [] pA) pB =
        [("app.emails", [("APreview", pA), ("BPreview", pB)])] := rfl
    rw [hreg]
    simp [siteIter, alistGet, hle]
    intro h
    exact absurd h (by decide)
  · intro hs
    rw [List.sorted_cons] at hs
    have h₁ := hs.1 pB (by simp)
    rw [String.le_iff_toList_le] at h₁
    exact absurd h₁ (by decide)
